import Mathlib

/-!
Verification of the tx-processor payment engine.

The Rust sources (`src/account.rs`, `src/engine.rs`, `src/transaction.rs`)
are embedded shallowly:
* `rust_decimal::Decimal` amounts become `Rat` (the code only adds,
  subtracts and compares amounts, operations under which decimals are a
  subset of the rationals);
* the two `HashMap`s of `PaymentEngine` become association lists with
  `mapLookup` / `mapInsert` mirroring `HashMap::get` / `insert` and the
  `entry(..).or_insert_with(..)` pattern;
* `&mut self` methods become state-passing functions; `Result<()>`
  becomes `Except String PaymentEngine`.
-/

abbrev ClientId := Nat

abbrev TxId := Nat

/-- `Account` from `src/account.rs`: available funds, held funds, lock flag. -/
structure Account where
  available : Rat
  held : Rat
  locked : Bool
  deriving DecidableEq, Repr

/-- `Account::new` / `Default`: zero balances, unlocked. -/
def Account.new : Account := ⟨0, 0, false⟩

/-- `Account::total`: `available + held`. -/
def Account.total (a : Account) : Rat := a.available + a.held

/-- `Account::deposit`: adds to `available` unless locked. -/
def Account.deposit (a : Account) (amount : Rat) : Account :=
  if a.locked = false then { a with available := a.available + amount } else a

/-- `Account::withdraw`: subtracts from `available` and returns `true` when
not locked and `available >= amount`; otherwise returns `false` unchanged. -/
def Account.withdraw (a : Account) (amount : Rat) : Bool × Account :=
  if a.locked = false ∧ amount ≤ a.available then
    (true, { a with available := a.available - amount })
  else
    (false, a)

/-- `Account::hold_funds`: moves `amount` from `available` to `held` when
not locked and `available >= amount`; otherwise no-op. -/
def Account.hold_funds (a : Account) (amount : Rat) : Account :=
  if a.locked = false ∧ amount ≤ a.available then
    { a with available := a.available - amount, held := a.held + amount }
  else
    a

/-- `Account::release_funds`: moves `amount` from `held` back to `available`
when not locked and `held >= amount`; otherwise no-op. -/
def Account.release_funds (a : Account) (amount : Rat) : Account :=
  if a.locked = false ∧ amount ≤ a.held then
    { a with held := a.held - amount, available := a.available + amount }
  else
    a

/-- `Account::chargeback`: when `held >= amount` removes `amount` from `held`
and sets `locked`; otherwise no-op. The lock flag is not consulted. -/
def Account.chargeback (a : Account) (amount : Rat) : Account :=
  if amount ≤ a.held then
    { a with held := a.held - amount, locked := true }
  else
    a

/-- `TransactionType` from `src/transaction.rs`. -/
inductive TransactionType where
  | Deposit
  | Withdrawal
  | Dispute
  | Resolve
  | Chargeback
  deriving DecidableEq, Repr

/-- `TransactionRecord` from `src/transaction.rs` (one parsed input row). -/
structure TransactionRecord where
  tx_type : TransactionType
  client : ClientId
  tx : TxId
  amount : Option Rat
  deriving DecidableEq, Repr

/-- `StoredTransaction` from `src/transaction.rs` (history entry). -/
structure StoredTransaction where
  client : ClientId
  amount : Rat
  tx_type : TransactionType
  disputed : Bool
  deriving DecidableEq, Repr

/-- `TransactionRecord::validate`: Deposit/Withdrawal require an amount. -/
def TransactionRecord.validate (r : TransactionRecord) : Except String Unit :=
  match r.tx_type with
  | TransactionType.Deposit | TransactionType.Withdrawal =>
    match r.amount with
    | none => Except.error "Deposit/Withdrawal requires amount"
    | some _ => Except.ok ()
  | _ => Except.ok ()

/-- Association-list model of `HashMap::get` (keys kept unique). -/
def mapLookup {α : Type} (k : Nat) : List (Nat × α) → Option α
  | [] => none
  | (k', v) :: m => if k = k' then some v else mapLookup k m

/-- Association-list model of `HashMap::insert`: replace or append. -/
def mapInsert {α : Type} (k : Nat) (v : α) : List (Nat × α) → List (Nat × α)
  | [] => [(k, v)]
  | (k', v') :: m => if k = k' then (k, v) :: m else (k', v') :: mapInsert k v m

/-- `PaymentEngine` from `src/engine.rs`: client → account, tx id → stored
transaction. -/
structure PaymentEngine where
  accounts : List (ClientId × Account)
  transactions : List (TxId × StoredTransaction)
  deriving DecidableEq, Repr

/-- `PaymentEngine::new`: both maps empty. -/
def PaymentEngine.new : PaymentEngine := ⟨[], []⟩

/-- The account the engine works on for a record's client:
`accounts.entry(client).or_insert_with(Account::new)` reads the existing
account or a fresh one. -/
def acctOf (e : PaymentEngine) (c : ClientId) : Account :=
  (mapLookup c e.accounts).getD Account.new

/-- `PaymentEngine::process_transaction` from `src/engine.rs`: validate,
look up / create the client's account, dispatch on the record type.  Every
branch writes the (possibly unchanged) account back, mirroring
`entry(..).or_insert_with(..)` which inserts a default account even when
the ensuing dispatch arm is a no-op. -/
def PaymentEngine.process_transaction (e : PaymentEngine) (r : TransactionRecord) :
    Except String PaymentEngine :=
  match r.validate with
  | Except.error msg => Except.error msg
  | Except.ok _ =>
    let account := acctOf e r.client
    match r.tx_type with
    | TransactionType.Deposit =>
      match r.amount with
      | none => Except.error "Deposit missing amount"
      | some amount =>
        Except.ok
          ⟨mapInsert r.client (account.deposit amount) e.accounts,
           mapInsert r.tx ⟨r.client, amount, TransactionType.Deposit, false⟩ e.transactions⟩
    | TransactionType.Withdrawal =>
      match r.amount with
      | none => Except.error "Withdrawal missing amount"
      | some amount =>
        let res := account.withdraw amount
        Except.ok
          ⟨mapInsert r.client res.2 e.accounts,
           if res.1 then
             mapInsert r.tx ⟨r.client, amount, TransactionType.Withdrawal, false⟩ e.transactions
           else
             e.transactions⟩
    | TransactionType.Dispute =>
      match mapLookup r.tx e.transactions with
      | none => Except.ok ⟨mapInsert r.client account e.accounts, e.transactions⟩
      | some st =>
        if st.client = r.client ∧ st.disputed = false then
          Except.ok
            ⟨mapInsert r.client (account.hold_funds st.amount) e.accounts,
             mapInsert r.tx { st with disputed := true } e.transactions⟩
        else
          Except.ok ⟨mapInsert r.client account e.accounts, e.transactions⟩
    | TransactionType.Resolve =>
      match mapLookup r.tx e.transactions with
      | none => Except.ok ⟨mapInsert r.client account e.accounts, e.transactions⟩
      | some st =>
        if st.client = r.client ∧ st.disputed = true then
          Except.ok
            ⟨mapInsert r.client (account.release_funds st.amount) e.accounts,
             mapInsert r.tx { st with disputed := false } e.transactions⟩
        else
          Except.ok ⟨mapInsert r.client account e.accounts, e.transactions⟩
    | TransactionType.Chargeback =>
      match mapLookup r.tx e.transactions with
      | none => Except.ok ⟨mapInsert r.client account e.accounts, e.transactions⟩
      | some st =>
        if st.client = r.client ∧ st.disputed = true then
          Except.ok
            ⟨mapInsert r.client (account.chargeback st.amount) e.accounts,
             mapInsert r.tx { st with disputed := false } e.transactions⟩
        else
          Except.ok ⟨mapInsert r.client account e.accounts, e.transactions⟩

/-- The record loop of `src/main.rs`: apply records in order; a record whose
processing errors leaves the engine untouched (the warning is printed and
the run continues). -/
def processAll (e : PaymentEngine) : List TransactionRecord → PaymentEngine
  | [] => e
  | r :: rs =>
    match e.process_transaction r with
    | Except.ok e' => processAll e' rs
    | Except.error _ => processAll e rs

/-- One direct call on an `Account`, for stating properties of arbitrary
call sequences (claim C1 quantifies over such sequences). -/
inductive AccountOp where
  | deposit (q : Rat)
  | withdraw (q : Rat)
  | hold (q : Rat)
  | release (q : Rat)
  | chargeback (q : Rat)
  deriving DecidableEq, Repr

/-- The amount an operation carries. -/
def AccountOp.amount : AccountOp → Rat
  | AccountOp.deposit q => q
  | AccountOp.withdraw q => q
  | AccountOp.hold q => q
  | AccountOp.release q => q
  | AccountOp.chargeback q => q

/-- Apply one call to an account (the `withdraw` return value is dropped). -/
def applyOp (a : Account) : AccountOp → Account
  | AccountOp.deposit q => a.deposit q
  | AccountOp.withdraw q => (a.withdraw q).2
  | AccountOp.hold q => a.hold_funds q
  | AccountOp.release q => a.release_funds q
  | AccountOp.chargeback q => a.chargeback q

/-- Apply a sequence of calls in order. -/
def applyOps (a : Account) (ops : List AccountOp) : Account := ops.foldl applyOp a

/-- The guard each operation checks before mutating, read off the `if`
conditions in `src/account.rs`. -/
def opGuard (a : Account) : AccountOp → Prop
  | AccountOp.deposit _ => a.locked = false
  | AccountOp.withdraw q => a.locked = false ∧ q ≤ a.available
  | AccountOp.hold q => a.locked = false ∧ q ≤ a.available
  | AccountOp.release q => a.locked = false ∧ q ≤ a.held
  | AccountOp.chargeback q => q ≤ a.held

theorem mapLookup_insert_self {α : Type} (k : Nat) (v : α) (m : List (Nat × α)) :
    mapLookup k (mapInsert k v m) = some v := by
  induction m with
  | nil => simp [mapInsert, mapLookup]
  | cons p m ih =>
    obtain ⟨k', v'⟩ := p
    by_cases h : k = k' <;> simp [mapInsert, mapLookup, h, ih]

theorem mapLookup_insert_ne {α : Type} {c k : Nat} (h : c ≠ k) (v : α)
    (m : List (Nat × α)) : mapLookup c (mapInsert k v m) = mapLookup c m := by
  induction m with
  | nil => simp [mapInsert, mapLookup, h]
  | cons p m ih =>
    obtain ⟨k', v'⟩ := p
    by_cases hk : k = k'
    · subst hk
      simp [mapInsert, mapLookup, h]
    · by_cases hc : c = k' <;> simp [mapInsert, mapLookup, hk, hc, ih]

theorem mapInsert_of_lookup {α : Type} {k : Nat} {v : α} {m : List (Nat × α)}
    (h : mapLookup k m = some v) : mapInsert k v m = m := by
  induction m with
  | nil => simp [mapLookup] at h
  | cons p m ih =>
    obtain ⟨k', v'⟩ := p
    by_cases hk : k = k'
    · subst hk
      simp [mapLookup] at h
      simp [mapInsert, h]
    · simp [mapLookup, hk] at h
      simp [mapInsert, hk, ih h]

theorem applyOp_nonneg (a : Account) (op : AccountOp) (ha : 0 ≤ a.available)
    (hh : 0 ≤ a.held) (hq : 0 ≤ op.amount) :
    0 ≤ (applyOp a op).available ∧ 0 ≤ (applyOp a op).held := by
  cases op with
  | deposit q =>
    simp only [AccountOp.amount] at hq
    simp only [applyOp, Account.deposit]
    split_ifs with h
    · exact ⟨by simp; linarith, by simpa using hh⟩
    · exact ⟨ha, hh⟩
  | withdraw q =>
    simp only [AccountOp.amount] at hq
    simp only [applyOp, Account.withdraw]
    split_ifs with h
    · exact ⟨by simp; linarith [h.2], by simpa using hh⟩
    · exact ⟨ha, hh⟩
  | hold q =>
    simp only [AccountOp.amount] at hq
    simp only [applyOp, Account.hold_funds]
    split_ifs with h
    · exact ⟨by simp; linarith [h.2], by simp; linarith⟩
    · exact ⟨ha, hh⟩
  | release q =>
    simp only [AccountOp.amount] at hq
    simp only [applyOp, Account.release_funds]
    split_ifs with h
    · exact ⟨by simp; linarith, by simp; linarith [h.2]⟩
    · exact ⟨ha, hh⟩
  | chargeback q =>
    simp only [AccountOp.amount] at hq
    simp only [applyOp, Account.chargeback]
    split_ifs with h
    · exact ⟨by simpa using ha, by simp; linarith⟩
    · exact ⟨ha, hh⟩

theorem applyOps_nonneg (ops : List AccountOp) :
    ∀ a : Account, 0 ≤ a.available → 0 ≤ a.held →
      (∀ op ∈ ops, 0 ≤ op.amount) →
      0 ≤ (applyOps a ops).available ∧ 0 ≤ (applyOps a ops).held := by
  induction ops with
  | nil => intro a ha hh _; exact ⟨ha, hh⟩
  | cons op ops ih =>
    intro a ha hh hq
    have h1 := applyOp_nonneg a op ha hh (hq op (by simp))
    have := ih (applyOp a op) h1.1 h1.2 (fun o ho => hq o (by simp [ho]))
    simpa [applyOps, List.foldl_cons] using this

theorem applyOp_guard_or_id (a : Account) (op : AccountOp) :
    opGuard a op ∨ applyOp a op = a := by
  cases op with
  | deposit q =>
    by_cases h : a.locked = false
    · exact Or.inl h
    · exact Or.inr (by simp [applyOp, Account.deposit, h])
  | withdraw q =>
    by_cases h : a.locked = false ∧ q ≤ a.available
    · exact Or.inl h
    · exact Or.inr (by simp [applyOp, Account.withdraw, h])
  | hold q =>
    by_cases h : a.locked = false ∧ q ≤ a.available
    · exact Or.inl h
    · exact Or.inr (by simp [applyOp, Account.hold_funds, h])
  | release q =>
    by_cases h : a.locked = false ∧ q ≤ a.held
    · exact Or.inl h
    · exact Or.inr (by simp [applyOp, Account.release_funds, h])
  | chargeback q =>
    by_cases h : q ≤ a.held
    · exact Or.inl h
    · exact Or.inr (by simp [applyOp, Account.chargeback, h])

/-- C1: starting from a fresh account, any sequence of the five operations
with non-negative amounts keeps `available >= 0` and `held >= 0` (the
quantification over all sequences covers every prefix, hence the balances
are non-negative after every call); and each single operation either has
its guard satisfied or leaves the account exactly unchanged. -/
theorem C1_balances_nonneg :
    (∀ ops : List AccountOp, (∀ op ∈ ops, 0 ≤ op.amount) →
      0 ≤ (applyOps Account.new ops).available ∧ 0 ≤ (applyOps Account.new ops).held) ∧
    (∀ (a : Account) (op : AccountOp), opGuard a op ∨ applyOp a op = a) :=
  ⟨fun ops hq => applyOps_nonneg ops Account.new (le_refl 0) (le_refl 0) hq,
   applyOp_guard_or_id⟩

/-- C1 at a concrete call sequence. -/
theorem C1_balances_nonneg_witness :
    0 ≤ (applyOps Account.new
      [AccountOp.deposit 3, AccountOp.withdraw 1, AccountOp.hold 2,
       AccountOp.release 1, AccountOp.chargeback 1]).available ∧
    0 ≤ (applyOps Account.new
      [AccountOp.deposit 3, AccountOp.withdraw 1, AccountOp.hold 2,
       AccountOp.release 1, AccountOp.chargeback 1]).held :=
  C1_balances_nonneg.1 _ (by
    intro op hop
    simp only [List.mem_cons, List.not_mem_nil, or_false] at hop
    rcases hop with h | h | h | h | h <;> subst h <;> norm_num [AccountOp.amount])

theorem deposit_locked (a : Account) (q : Rat) : (a.deposit q).locked = a.locked := by
  unfold Account.deposit
  split_ifs <;> rfl

theorem withdraw_locked (a : Account) (q : Rat) : ((a.withdraw q).2).locked = a.locked := by
  unfold Account.withdraw
  split_ifs <;> rfl

theorem hold_funds_locked (a : Account) (q : Rat) : (a.hold_funds q).locked = a.locked := by
  unfold Account.hold_funds
  split_ifs <;> rfl

theorem release_funds_locked (a : Account) (q : Rat) :
    (a.release_funds q).locked = a.locked := by
  unfold Account.release_funds
  split_ifs <;> rfl

theorem chargeback_locked_mono (a : Account) (q : Rat) (h : a.locked = true) :
    (a.chargeback q).locked = true := by
  unfold Account.chargeback
  split_ifs <;> simp [h]

/-- Every successful `process_transaction` writes exactly one account slot:
the record's client, with a value that keeps a `locked = true` flag. -/
theorem process_ok_accounts (e : PaymentEngine) (r : TransactionRecord)
    (e' : PaymentEngine) (h : e.process_transaction r = Except.ok e') :
    ∃ a', e'.accounts = mapInsert r.client a' e.accounts ∧
      ((acctOf e r.client).locked = true → a'.locked = true) := by
  unfold PaymentEngine.process_transaction at h
  split at h
  · exact absurd h (by simp)
  · split at h
    · -- Deposit
      split at h
      · exact absurd h (by simp)
      · simp only [Except.ok.injEq] at h
        subst h
        exact ⟨_, rfl, fun hl => by rw [deposit_locked]; exact hl⟩
    · -- Withdrawal
      split at h
      · exact absurd h (by simp)
      · simp only [Except.ok.injEq] at h
        subst h
        exact ⟨_, rfl, fun hl => by rw [withdraw_locked]; exact hl⟩
    · -- Dispute
      split at h
      · simp only [Except.ok.injEq] at h
        subst h
        exact ⟨_, rfl, fun hl => hl⟩
      · split at h <;> simp only [Except.ok.injEq] at h <;> subst h
        · exact ⟨_, rfl, fun hl => by rw [hold_funds_locked]; exact hl⟩
        · exact ⟨_, rfl, fun hl => hl⟩
    · -- Resolve
      split at h
      · simp only [Except.ok.injEq] at h
        subst h
        exact ⟨_, rfl, fun hl => hl⟩
      · split at h <;> simp only [Except.ok.injEq] at h <;> subst h
        · exact ⟨_, rfl, fun hl => by rw [release_funds_locked]; exact hl⟩
        · exact ⟨_, rfl, fun hl => hl⟩
    · -- Chargeback
      split at h
      · simp only [Except.ok.injEq] at h
        subst h
        exact ⟨_, rfl, fun hl => hl⟩
      · split at h <;> simp only [Except.ok.injEq] at h <;> subst h
        · exact ⟨_, rfl, fun hl => chargeback_locked_mono _ _ hl⟩
        · exact ⟨_, rfl, fun hl => hl⟩

theorem process_locked_mono (e : PaymentEngine) (r : TransactionRecord)
    (e' : PaymentEngine) (c : ClientId) (h : e.process_transaction r = Except.ok e')
    (hl : (acctOf e c).locked = true) : (acctOf e' c).locked = true := by
  obtain ⟨a', hacc, himp⟩ := process_ok_accounts e r e' h
  by_cases hc : c = r.client
  · subst hc
    simp only [acctOf, hacc, mapLookup_insert_self, Option.getD_some]
    exact himp hl
  · simp only [acctOf, hacc, mapLookup_insert_ne hc]
    exact hl

theorem processAll_locked_mono (rs : List TransactionRecord) :
    ∀ (e : PaymentEngine) (c : ClientId), (acctOf e c).locked = true →
      (acctOf (processAll e rs) c).locked = true := by
  induction rs with
  | nil => intro e c hl; exact hl
  | cons r rs ih =>
    intro e c hl
    unfold processAll
    cases hp : e.process_transaction r with
    | ok e' => exact ih e' c (process_locked_mono e r e' c hp hl)
    | error msg => exact ih e c hl

theorem process_deposit_eq (e : PaymentEngine) (c : ClientId) (t : TxId) (q : Rat) :
    e.process_transaction ⟨TransactionType.Deposit, c, t, some q⟩ =
      Except.ok ⟨mapInsert c ((acctOf e c).deposit q) e.accounts,
                 mapInsert t ⟨c, q, TransactionType.Deposit, false⟩ e.transactions⟩ := rfl

theorem process_withdrawal_eq (e : PaymentEngine) (c : ClientId) (t : TxId) (q : Rat) :
    e.process_transaction ⟨TransactionType.Withdrawal, c, t, some q⟩ =
      Except.ok ⟨mapInsert c ((acctOf e c).withdraw q).2 e.accounts,
                 if ((acctOf e c).withdraw q).1 then
                   mapInsert t ⟨c, q, TransactionType.Withdrawal, false⟩ e.transactions
                 else
                   e.transactions⟩ := rfl

theorem process_dispute_eq (e : PaymentEngine) (c : ClientId) (t : TxId)
    (am : Option Rat) :
    e.process_transaction ⟨TransactionType.Dispute, c, t, am⟩ =
      match mapLookup t e.transactions with
      | none => Except.ok ⟨mapInsert c (acctOf e c) e.accounts, e.transactions⟩
      | some st =>
        if st.client = c ∧ st.disputed = false then
          Except.ok ⟨mapInsert c ((acctOf e c).hold_funds st.amount) e.accounts,
                     mapInsert t { st with disputed := true } e.transactions⟩
        else
          Except.ok ⟨mapInsert c (acctOf e c) e.accounts, e.transactions⟩ := rfl

theorem process_resolve_eq (e : PaymentEngine) (c : ClientId) (t : TxId)
    (am : Option Rat) :
    e.process_transaction ⟨TransactionType.Resolve, c, t, am⟩ =
      match mapLookup t e.transactions with
      | none => Except.ok ⟨mapInsert c (acctOf e c) e.accounts, e.transactions⟩
      | some st =>
        if st.client = c ∧ st.disputed = true then
          Except.ok ⟨mapInsert c ((acctOf e c).release_funds st.amount) e.accounts,
                     mapInsert t { st with disputed := false } e.transactions⟩
        else
          Except.ok ⟨mapInsert c (acctOf e c) e.accounts, e.transactions⟩ := rfl

theorem process_chargeback_eq (e : PaymentEngine) (c : ClientId) (t : TxId)
    (am : Option Rat) :
    e.process_transaction ⟨TransactionType.Chargeback, c, t, am⟩ =
      match mapLookup t e.transactions with
      | none => Except.ok ⟨mapInsert c (acctOf e c) e.accounts, e.transactions⟩
      | some st =>
        if st.client = c ∧ st.disputed = true then
          Except.ok ⟨mapInsert c ((acctOf e c).chargeback st.amount) e.accounts,
                     mapInsert t { st with disputed := false } e.transactions⟩
        else
          Except.ok ⟨mapInsert c (acctOf e c) e.accounts, e.transactions⟩ := rfl

theorem acctOf_insert_self (a : Account) (acc : List (ClientId × Account))
    (tr : List (TxId × StoredTransaction)) (c : ClientId) :
    acctOf ⟨mapInsert c a acc, tr⟩ c = a := by
  simp [acctOf, mapLookup_insert_self]

theorem acctOf_insert_ne {c k : ClientId} (h : c ≠ k) (a : Account)
    (acc : List (ClientId × Account)) (tr : List (TxId × StoredTransaction)) :
    acctOf ⟨mapInsert k a acc, tr⟩ c = acctOf ⟨acc, tr⟩ c := by
  simp [acctOf, mapLookup_insert_ne h]

/-- C2 counterexample: deposit 10, withdraw 6 (available 4), dispute the
deposit (the hold of 10 silently fails since only 4 is available, yet the
transaction is marked disputed), then chargeback.  The chargeback's guard
`held >= 10` fails, so — contrary to the claim — nothing is removed from
`held` and the account is NOT locked, even though the stored transaction
existed with matching client and `disputed == true` when the Chargeback
record arrived. -/
theorem C2_cex_chargeback_not_locking :
    mapLookup 1 (processAll PaymentEngine.new
        [⟨TransactionType.Deposit, 1, 1, some 10⟩,
         ⟨TransactionType.Withdrawal, 1, 2, some 6⟩,
         ⟨TransactionType.Dispute, 1, 1, none⟩]).transactions
      = some ⟨1, 10, TransactionType.Deposit, true⟩ ∧
    acctOf (processAll PaymentEngine.new
        [⟨TransactionType.Deposit, 1, 1, some 10⟩,
         ⟨TransactionType.Withdrawal, 1, 2, some 6⟩,
         ⟨TransactionType.Dispute, 1, 1, none⟩,
         ⟨TransactionType.Chargeback, 1, 1, none⟩]) 1
      = ⟨4, 0, false⟩ := by
  constructor <;>
    norm_num [processAll, PaymentEngine.process_transaction, TransactionRecord.validate,
      acctOf, mapLookup, mapInsert, PaymentEngine.new, Account.new, Account.deposit,
      Account.withdraw, Account.hold_funds, Account.chargeback]

/-- C2 amended: the chargeback conclusion additionally needs the account to
actually hold the disputed amount (`st.amount <= held`, the guard of
`Account::chargeback`).  Under that proviso, a Chargeback for a stored,
client-matching, disputed transaction removes the amount from `held` (not
from `available`), reduces `total` by the amount, finalizes the stored
transaction, sets `locked = true`, and the lock survives every later
record. -/
theorem C2_chargeback_amended (e : PaymentEngine) (c : ClientId) (t : TxId)
    (st : StoredTransaction) (hst : mapLookup t e.transactions = some st)
    (hc : st.client = c) (hd : st.disputed = true)
    (hheld : st.amount ≤ (acctOf e c).held) :
    ∃ e', e.process_transaction ⟨TransactionType.Chargeback, c, t, none⟩ = Except.ok e' ∧
      (acctOf e' c).held = (acctOf e c).held - st.amount ∧
      (acctOf e' c).available = (acctOf e c).available ∧
      (acctOf e' c).locked = true ∧
      (acctOf e' c).total = (acctOf e c).total - st.amount ∧
      mapLookup t e'.transactions = some { st with disputed := false } ∧
      ∀ rs : List TransactionRecord, (acctOf (processAll e' rs) c).locked = true := by
  have hcb : (acctOf e c).chargeback st.amount =
      { acctOf e c with held := (acctOf e c).held - st.amount, locked := true } := by
    unfold Account.chargeback
    rw [if_pos hheld]
  have heq : e.process_transaction ⟨TransactionType.Chargeback, c, t, none⟩ =
      Except.ok ⟨mapInsert c ((acctOf e c).chargeback st.amount) e.accounts,
                 mapInsert t { st with disputed := false } e.transactions⟩ := by
    rw [process_chargeback_eq, hst]
    simp only [hc, hd, and_self, if_true]
  refine ⟨_, heq, ?_, ?_, ?_, ?_, ?_, ?_⟩
  · rw [acctOf_insert_self, hcb]
  · rw [acctOf_insert_self, hcb]
  · rw [acctOf_insert_self, hcb]
  · rw [acctOf_insert_self, hcb]
    unfold Account.total
    dsimp only
    ring
  · exact mapLookup_insert_self _ _ _
  · intro rs
    apply processAll_locked_mono
    rw [acctOf_insert_self, hcb]

/-- C2 amended, at a concrete engine: client 1 holds 10, transaction 5 is a
disputed deposit of 10. -/
theorem C2_chargeback_amended_witness :
    ∃ e', (PaymentEngine.mk [(1, ⟨2, 10, false⟩)]
             [(5, ⟨1, 10, TransactionType.Deposit, true⟩)]).process_transaction
             ⟨TransactionType.Chargeback, 1, 5, none⟩ = Except.ok e' ∧
      (acctOf e' 1).held =
        (acctOf (PaymentEngine.mk [(1, ⟨2, 10, false⟩)]
          [(5, ⟨1, 10, TransactionType.Deposit, true⟩)]) 1).held - (10 : Rat) ∧
      (acctOf e' 1).available =
        (acctOf (PaymentEngine.mk [(1, ⟨2, 10, false⟩)]
          [(5, ⟨1, 10, TransactionType.Deposit, true⟩)]) 1).available ∧
      (acctOf e' 1).locked = true ∧
      (acctOf e' 1).total =
        (acctOf (PaymentEngine.mk [(1, ⟨2, 10, false⟩)]
          [(5, ⟨1, 10, TransactionType.Deposit, true⟩)]) 1).total - (10 : Rat) ∧
      mapLookup 5 e'.transactions = some ⟨1, 10, TransactionType.Deposit, false⟩ ∧
      ∀ rs : List TransactionRecord, (acctOf (processAll e' rs) 1).locked = true :=
  C2_chargeback_amended _ 1 5 ⟨1, 10, TransactionType.Deposit, true⟩ rfl rfl rfl
    (by norm_num [acctOf, mapLookup])

/-- C3 counterexample: after deposit 10 (tx 1), deposit 6 (tx 2),
dispute tx 1, withdraw 5 the account has `available = 1, held = 10` and
tx 2 is stored undisputed with matching client.  Disputing tx 2 then
resolving it immediately does NOT leave `available` and `held` at their
prior values: the dispute's hold of 6 fails silently (`available = 1 < 6`)
but the resolve still releases 6 of the held funds, ending at
`available = 7, held = 4` instead of `available = 1, held = 10`. -/
theorem C3_cex_dispute_resolve_not_restoring :
    mapLookup 2 (processAll PaymentEngine.new
        [⟨TransactionType.Deposit, 1, 1, some 10⟩,
         ⟨TransactionType.Deposit, 1, 2, some 6⟩,
         ⟨TransactionType.Dispute, 1, 1, none⟩,
         ⟨TransactionType.Withdrawal, 1, 3, some 5⟩]).transactions
      = some ⟨1, 6, TransactionType.Deposit, false⟩ ∧
    acctOf (processAll PaymentEngine.new
        [⟨TransactionType.Deposit, 1, 1, some 10⟩,
         ⟨TransactionType.Deposit, 1, 2, some 6⟩,
         ⟨TransactionType.Dispute, 1, 1, none⟩,
         ⟨TransactionType.Withdrawal, 1, 3, some 5⟩]) 1 = ⟨1, 10, false⟩ ∧
    acctOf (processAll PaymentEngine.new
        [⟨TransactionType.Deposit, 1, 1, some 10⟩,
         ⟨TransactionType.Deposit, 1, 2, some 6⟩,
         ⟨TransactionType.Dispute, 1, 1, none⟩,
         ⟨TransactionType.Withdrawal, 1, 3, some 5⟩,
         ⟨TransactionType.Dispute, 1, 2, none⟩,
         ⟨TransactionType.Resolve, 1, 2, none⟩]) 1 = ⟨7, 4, false⟩ := by
  refine ⟨?_, ?_, ?_⟩ <;>
    norm_num [processAll, PaymentEngine.process_transaction, TransactionRecord.validate,
      acctOf, mapLookup, mapInsert, PaymentEngine.new, Account.new, Account.deposit,
      Account.withdraw, Account.hold_funds, Account.release_funds]

/-- C3 amended: the dispute/resolve pair restores the balances exactly
provided the dispute's hold actually applies — the account is unlocked and
`available >= amount` — and `held >= 0` (true of every reachable account).
Then Dispute moves the amount from `available` to `held` and the immediate
Resolve moves it back, returning the account to exactly its prior state. -/
theorem C3_dispute_resolve_amended (e : PaymentEngine) (c : ClientId) (t : TxId)
    (st : StoredTransaction) (hst : mapLookup t e.transactions = some st)
    (hc : st.client = c) (hd : st.disputed = false)
    (hl : (acctOf e c).locked = false) (hav : st.amount ≤ (acctOf e c).available)
    (hh : 0 ≤ (acctOf e c).held) :
    ∃ e₁ e₂, e.process_transaction ⟨TransactionType.Dispute, c, t, none⟩ = Except.ok e₁ ∧
      acctOf e₁ c = ⟨(acctOf e c).available - st.amount,
                     (acctOf e c).held + st.amount, (acctOf e c).locked⟩ ∧
      e₁.process_transaction ⟨TransactionType.Resolve, c, t, none⟩ = Except.ok e₂ ∧
      acctOf e₂ c = acctOf e c ∧
      (acctOf e₂ c).total = (acctOf e c).total := by
  have hhold : (acctOf e c).hold_funds st.amount =
      ⟨(acctOf e c).available - st.amount, (acctOf e c).held + st.amount,
       (acctOf e c).locked⟩ := by
    unfold Account.hold_funds
    rw [if_pos ⟨hl, hav⟩]
  have heq1 : e.process_transaction ⟨TransactionType.Dispute, c, t, none⟩ =
      Except.ok ⟨mapInsert c ((acctOf e c).hold_funds st.amount) e.accounts,
                 mapInsert t { st with disputed := true } e.transactions⟩ := by
    rw [process_dispute_eq, hst]
    simp only [hc, hd, and_self, if_true]
  set e₁ : PaymentEngine :=
    ⟨mapInsert c ((acctOf e c).hold_funds st.amount) e.accounts,
     mapInsert t { st with disputed := true } e.transactions⟩ with he₁
  have ha₁ : acctOf e₁ c = ⟨(acctOf e c).available - st.amount,
      (acctOf e c).held + st.amount, (acctOf e c).locked⟩ := by
    rw [he₁, acctOf_insert_self, hhold]
  have hrel : (acctOf e₁ c).release_funds st.amount = acctOf e c := by
    rw [ha₁]
    unfold Account.release_funds
    rw [if_pos ⟨by rw [hl], by simp; linarith⟩]
    dsimp only
    rw [sub_add_cancel, add_sub_cancel_right]
  have heq2 : e₁.process_transaction ⟨TransactionType.Resolve, c, t, none⟩ =
      Except.ok ⟨mapInsert c ((acctOf e₁ c).release_funds st.amount) e₁.accounts,
                 mapInsert t { st with disputed := false } e₁.transactions⟩ := by
    rw [process_resolve_eq, he₁]
    dsimp only
    rw [mapLookup_insert_self]
    simp only [hc, and_self, if_true]
  refine ⟨e₁, _, heq1, ha₁, heq2, ?_, ?_⟩
  · rw [acctOf_insert_self, hrel]
  · rw [acctOf_insert_self, hrel]

/-- C3 amended, at a concrete engine: client 1 has `available = 10`,
`held = 0`; transaction 7 is an undisputed deposit of 4. -/
theorem C3_dispute_resolve_amended_witness :
    ∃ e₁ e₂, (PaymentEngine.mk [(1, ⟨10, 0, false⟩)]
        [(7, ⟨1, 4, TransactionType.Deposit, false⟩)]).process_transaction
        ⟨TransactionType.Dispute, 1, 7, none⟩ = Except.ok e₁ ∧
      acctOf e₁ 1 = ⟨(10 : Rat) - 4, (0 : Rat) + 4, false⟩ ∧
      e₁.process_transaction ⟨TransactionType.Resolve, 1, 7, none⟩ = Except.ok e₂ ∧
      acctOf e₂ 1 = acctOf (PaymentEngine.mk [(1, ⟨10, 0, false⟩)]
        [(7, ⟨1, 4, TransactionType.Deposit, false⟩)]) 1 ∧
      (acctOf e₂ 1).total = (acctOf (PaymentEngine.mk [(1, ⟨10, 0, false⟩)]
        [(7, ⟨1, 4, TransactionType.Deposit, false⟩)]) 1).total := by
  have h := C3_dispute_resolve_amended
    (PaymentEngine.mk [(1, ⟨10, 0, false⟩)] [(7, ⟨1, 4, TransactionType.Deposit, false⟩)])
    1 7 ⟨1, 4, TransactionType.Deposit, false⟩ rfl rfl rfl rfl
    (by norm_num [acctOf, mapLookup]) (by norm_num [acctOf, mapLookup])
  simpa [acctOf, mapLookup] using h

/-- C4 counterexample: deposit 10 (tx 1), deposit 50 (tx 2), dispute tx 1
(held 10), withdraw 45 (available 5), dispute tx 2 (its hold of 50 fails
silently since only 5 is available, but tx 2 is marked disputed), then
chargeback tx 1 — the account locks with `held = 0`.  Chargeback of tx 2,
a different transaction of the same account that was disputed before the
lock, does NOT remove tx 2's amount (50) from `held`: the guard
`held >= 50` fails and `held` stays 0. -/
theorem C4_cex_locked_chargeback_removes_nothing :
    acctOf (processAll PaymentEngine.new
        [⟨TransactionType.Deposit, 1, 1, some 10⟩,
         ⟨TransactionType.Deposit, 1, 2, some 50⟩,
         ⟨TransactionType.Dispute, 1, 1, none⟩,
         ⟨TransactionType.Withdrawal, 1, 3, some 45⟩,
         ⟨TransactionType.Dispute, 1, 2, none⟩,
         ⟨TransactionType.Chargeback, 1, 1, none⟩]) 1 = ⟨5, 0, true⟩ ∧
    mapLookup 2 (processAll PaymentEngine.new
        [⟨TransactionType.Deposit, 1, 1, some 10⟩,
         ⟨TransactionType.Deposit, 1, 2, some 50⟩,
         ⟨TransactionType.Dispute, 1, 1, none⟩,
         ⟨TransactionType.Withdrawal, 1, 3, some 45⟩,
         ⟨TransactionType.Dispute, 1, 2, none⟩,
         ⟨TransactionType.Chargeback, 1, 1, none⟩]).transactions
      = some ⟨1, 50, TransactionType.Deposit, true⟩ ∧
    acctOf (processAll PaymentEngine.new
        [⟨TransactionType.Deposit, 1, 1, some 10⟩,
         ⟨TransactionType.Deposit, 1, 2, some 50⟩,
         ⟨TransactionType.Dispute, 1, 1, none⟩,
         ⟨TransactionType.Withdrawal, 1, 3, some 45⟩,
         ⟨TransactionType.Dispute, 1, 2, none⟩,
         ⟨TransactionType.Chargeback, 1, 1, none⟩,
         ⟨TransactionType.Chargeback, 1, 2, none⟩]) 1 = ⟨5, 0, true⟩ ∧
    ((5 : Rat), (0 : Rat)) ≠ ((5 : Rat), (0 : Rat) - 50) := by
  refine ⟨?_, ?_, ?_, ?_⟩ <;>
    norm_num [processAll, PaymentEngine.process_transaction, TransactionRecord.validate,
      acctOf, mapLookup, mapInsert, PaymentEngine.new, Account.new, Account.deposit,
      Account.withdraw, Account.hold_funds, Account.chargeback]

/-- C4 amended: on a locked account, deposit, withdraw, hold and release
are exact no-ops and withdraw returns `false`; `locked` stays true under
every later record; and a chargeback of a different already-disputed
stored transaction of the same account still removes that amount from
`held` provided `held >= amount` (the guard of `Account::chargeback`). -/
theorem C4_locked_amended :
    (∀ (a : Account) (q : Rat), a.locked = true →
      a.deposit q = a ∧ a.withdraw q = (false, a) ∧
      a.hold_funds q = a ∧ a.release_funds q = a) ∧
    (∀ (e : PaymentEngine) (c : ClientId) (rs : List TransactionRecord),
      (acctOf e c).locked = true → (acctOf (processAll e rs) c).locked = true) ∧
    (∀ (e : PaymentEngine) (c : ClientId) (t : TxId) (st : StoredTransaction),
      mapLookup t e.transactions = some st → st.client = c → st.disputed = true →
      (acctOf e c).locked = true → st.amount ≤ (acctOf e c).held →
      ∃ e', e.process_transaction ⟨TransactionType.Chargeback, c, t, none⟩ = Except.ok e' ∧
        (acctOf e' c).held = (acctOf e c).held - st.amount ∧
        (acctOf e' c).locked = true) := by
  refine ⟨?_, ?_, ?_⟩
  · intro a q h
    refine ⟨?_, ?_, ?_, ?_⟩
    · unfold Account.deposit
      simp [h]
    · unfold Account.withdraw
      simp [h]
    · unfold Account.hold_funds
      simp [h]
    · unfold Account.release_funds
      simp [h]
  · intro e c rs hl
    exact processAll_locked_mono rs e c hl
  · intro e c t st hst hc hd _ hheld
    have hcb : (acctOf e c).chargeback st.amount =
        { acctOf e c with held := (acctOf e c).held - st.amount, locked := true } := by
      unfold Account.chargeback
      rw [if_pos hheld]
    have heq : e.process_transaction ⟨TransactionType.Chargeback, c, t, none⟩ =
        Except.ok ⟨mapInsert c ((acctOf e c).chargeback st.amount) e.accounts,
                   mapInsert t { st with disputed := false } e.transactions⟩ := by
      rw [process_chargeback_eq, hst]
      simp only [hc, hd, and_self, if_true]
    refine ⟨_, heq, ?_, ?_⟩
    · rw [acctOf_insert_self, hcb]
    · rw [acctOf_insert_self, hcb]

/-- C4 amended, at concrete inputs. -/
theorem C4_locked_amended_witness :
    ((Account.mk 5 0 true).deposit 3 = Account.mk 5 0 true ∧
     (Account.mk 5 0 true).withdraw 3 = (false, Account.mk 5 0 true) ∧
     (Account.mk 5 0 true).hold_funds 3 = Account.mk 5 0 true ∧
     (Account.mk 5 0 true).release_funds 3 = Account.mk 5 0 true) ∧
    (acctOf (processAll (PaymentEngine.mk [(1, ⟨5, 0, true⟩)] [])
      [⟨TransactionType.Deposit, 1, 4, some 2⟩]) 1).locked = true ∧
    (∃ e', (PaymentEngine.mk [(1, ⟨0, 10, true⟩)]
        [(9, ⟨1, 10, TransactionType.Deposit, true⟩)]).process_transaction
        ⟨TransactionType.Chargeback, 1, 9, none⟩ = Except.ok e' ∧
      (acctOf e' 1).held =
        (acctOf (PaymentEngine.mk [(1, ⟨0, 10, true⟩)]
          [(9, ⟨1, 10, TransactionType.Deposit, true⟩)]) 1).held - (10 : Rat) ∧
      (acctOf e' 1).locked = true) := by
  refine ⟨C4_locked_amended.1 _ 3 rfl, ?_, ?_⟩
  · exact C4_locked_amended.2.1 _ 1 _ (by norm_num [acctOf, mapLookup])
  · exact C4_locked_amended.2.2 _ 1 9 ⟨1, 10, TransactionType.Deposit, true⟩ rfl rfl rfl
      (by norm_num [acctOf, mapLookup]) (by norm_num [acctOf, mapLookup])

/-- The claim's "sum of that client's deposit amounts" over a record list. -/
def depSum (c : ClientId) : List TransactionRecord → Rat
  | [] => 0
  | r :: rs =>
    (if r.client = c ∧ r.tx_type = TransactionType.Deposit then r.amount.getD 0 else 0)
      + depSum c rs

/-- The claim's "sum of that client's successful withdrawal amounts":
threading the running balance, a withdrawal counts exactly when its amount
is at most the balance — the guard `Account::withdraw` checks on an
unlocked account. -/
def succWithdrawSum (c : ClientId) (bal : Rat) : List TransactionRecord → Rat
  | [] => 0
  | r :: rs =>
    if r.client = c then
      match r.tx_type, r.amount with
      | TransactionType.Deposit, some q => succWithdrawSum c (bal + q) rs
      | TransactionType.Withdrawal, some q =>
        if q ≤ bal then q + succWithdrawSum c (bal - q) rs
        else succWithdrawSum c bal rs
      | _, _ => succWithdrawSum c bal rs
    else succWithdrawSum c bal rs

theorem depwd_run (rs : List TransactionRecord)
    (hrs : ∀ r ∈ rs, (r.tx_type = TransactionType.Deposit ∨
        r.tx_type = TransactionType.Withdrawal) ∧ ∃ q : Rat, r.amount = some q) :
    ∀ e : PaymentEngine, (∀ c', (acctOf e c').held = 0 ∧ (acctOf e c').locked = false) →
      ∀ c, (acctOf (processAll e rs) c).held = 0 ∧
        (acctOf (processAll e rs) c).locked = false ∧
        (acctOf (processAll e rs) c).available =
          (acctOf e c).available + depSum c rs
            - succWithdrawSum c ((acctOf e c).available) rs := by
  induction rs with
  | nil =>
    intro e hinv c
    exact ⟨(hinv c).1, (hinv c).2, by simp [processAll, depSum, succWithdrawSum]⟩
  | cons r rs ih =>
    intro e hinv c
    obtain ⟨ty, rc, rt, ra⟩ := r
    obtain ⟨hty, q, hq⟩ := hrs _ (List.mem_cons_self _ _)
    dsimp only at hty hq
    subst hq
    have hrs' : ∀ r ∈ rs, (r.tx_type = TransactionType.Deposit ∨
        r.tx_type = TransactionType.Withdrawal) ∧ ∃ q : Rat, r.amount = some q :=
      fun r hr => hrs r (List.mem_cons_of_mem _ hr)
    rcases hty with hty | hty <;> subst hty
    · -- Deposit step
      have hdep : (acctOf e rc).deposit q =
          ⟨(acctOf e rc).available + q, (acctOf e rc).held, (acctOf e rc).locked⟩ := by
        unfold Account.deposit
        rw [if_pos (hinv rc).2]
      have hstep : processAll e (⟨TransactionType.Deposit, rc, rt, some q⟩ :: rs) =
          processAll ⟨mapInsert rc ((acctOf e rc).deposit q) e.accounts,
            mapInsert rt ⟨rc, q, TransactionType.Deposit, false⟩ e.transactions⟩ rs := by
        simp only [processAll, process_deposit_eq]
      rw [hstep]
      have hacct : ∀ c', acctOf ⟨mapInsert rc ((acctOf e rc).deposit q) e.accounts,
          mapInsert rt ⟨rc, q, TransactionType.Deposit, false⟩ e.transactions⟩ c' =
          if c' = rc then
            ⟨(acctOf e rc).available + q, (acctOf e rc).held, (acctOf e rc).locked⟩
          else acctOf e c' := by
        intro c'
        by_cases hc : c' = rc
        · subst hc
          rw [if_pos rfl, acctOf_insert_self, hdep]
        · rw [if_neg hc, acctOf_insert_ne hc]
          rfl
      have hinv₁ : ∀ c', (acctOf ⟨mapInsert rc ((acctOf e rc).deposit q) e.accounts,
          mapInsert rt ⟨rc, q, TransactionType.Deposit, false⟩ e.transactions⟩ c').held = 0 ∧
          (acctOf ⟨mapInsert rc ((acctOf e rc).deposit q) e.accounts,
          mapInsert rt ⟨rc, q, TransactionType.Deposit, false⟩ e.transactions⟩ c').locked
            = false := by
        intro c'
        rw [hacct c']
        by_cases hc : c' = rc
        · rw [if_pos hc]
          exact ⟨(hinv rc).1, (hinv rc).2⟩
        · rw [if_neg hc]
          exact hinv c'
      obtain ⟨ihh, ihl, iha⟩ := ih hrs' _ hinv₁ c
      refine ⟨ihh, ihl, ?_⟩
      rw [iha, hacct c]
      by_cases hc : c = rc
      · subst hc
        rw [if_pos rfl]
        simp [depSum, succWithdrawSum]
        ring
      · rw [if_neg hc]
        have hcr : ¬ rc = c := fun h => hc h.symm
        simp [depSum, succWithdrawSum, hcr]
    · -- Withdrawal step
      by_cases hw : q ≤ (acctOf e rc).available
      · -- successful withdrawal
        have hwd : (acctOf e rc).withdraw q =
            (true, ⟨(acctOf e rc).available - q, (acctOf e rc).held,
              (acctOf e rc).locked⟩) := by
          unfold Account.withdraw
          rw [if_pos ⟨(hinv rc).2, hw⟩]
        have hstep : processAll e (⟨TransactionType.Withdrawal, rc, rt, some q⟩ :: rs) =
            processAll ⟨mapInsert rc ⟨(acctOf e rc).available - q, (acctOf e rc).held,
                (acctOf e rc).locked⟩ e.accounts,
              mapInsert rt ⟨rc, q, TransactionType.Withdrawal, false⟩ e.transactions⟩ rs := by
          simp only [processAll, process_withdrawal_eq, hwd, if_true]
        rw [hstep]
        have hacct : ∀ c', acctOf ⟨mapInsert rc ⟨(acctOf e rc).available - q,
            (acctOf e rc).held, (acctOf e rc).locked⟩ e.accounts,
            mapInsert rt ⟨rc, q, TransactionType.Withdrawal, false⟩ e.transactions⟩ c' =
            if c' = rc then
              ⟨(acctOf e rc).available - q, (acctOf e rc).held, (acctOf e rc).locked⟩
            else acctOf e c' := by
          intro c'
          by_cases hc : c' = rc
          · subst hc
            rw [if_pos rfl, acctOf_insert_self]
          · rw [if_neg hc, acctOf_insert_ne hc]
            rfl
        have hinv₁ : ∀ c', (acctOf ⟨mapInsert rc ⟨(acctOf e rc).available - q,
            (acctOf e rc).held, (acctOf e rc).locked⟩ e.accounts,
            mapInsert rt ⟨rc, q, TransactionType.Withdrawal, false⟩ e.transactions⟩ c').held
              = 0 ∧
            (acctOf ⟨mapInsert rc ⟨(acctOf e rc).available - q,
            (acctOf e rc).held, (acctOf e rc).locked⟩ e.accounts,
            mapInsert rt ⟨rc, q, TransactionType.Withdrawal, false⟩ e.transactions⟩ c').locked
              = false := by
          intro c'
          rw [hacct c']
          by_cases hc : c' = rc
          · rw [if_pos hc]
            exact ⟨(hinv rc).1, (hinv rc).2⟩
          · rw [if_neg hc]
            exact hinv c'
        obtain ⟨ihh, ihl, iha⟩ := ih hrs' _ hinv₁ c
        refine ⟨ihh, ihl, ?_⟩
        rw [iha, hacct c]
        by_cases hc : c = rc
        · subst hc
          rw [if_pos rfl]
          simp [depSum, succWithdrawSum, hw]
          ring
        · rw [if_neg hc]
          have hcr : ¬ rc = c := fun h => hc h.symm
          simp [depSum, succWithdrawSum, hcr]
      · -- failed withdrawal
        have hwd : (acctOf e rc).withdraw q = (false, acctOf e rc) := by
          unfold Account.withdraw
          rw [if_neg (fun h => hw h.2)]
        have hstep : processAll e (⟨TransactionType.Withdrawal, rc, rt, some q⟩ :: rs) =
            processAll ⟨mapInsert rc (acctOf e rc) e.accounts, e.transactions⟩ rs := by
          simp only [processAll, process_withdrawal_eq, hwd, Bool.false_eq_true, if_false]
        rw [hstep]
        have hacct : ∀ c', acctOf ⟨mapInsert rc (acctOf e rc) e.accounts,
            e.transactions⟩ c' = acctOf e c' := by
          intro c'
          by_cases hc : c' = rc
          · subst hc
            rw [acctOf_insert_self]
          · rw [acctOf_insert_ne hc]
        have hinv₁ : ∀ c', (acctOf ⟨mapInsert rc (acctOf e rc) e.accounts,
            e.transactions⟩ c').held = 0 ∧
            (acctOf ⟨mapInsert rc (acctOf e rc) e.accounts,
            e.transactions⟩ c').locked = false := by
          intro c'
          rw [hacct c']
          exact hinv c'
        obtain ⟨ihh, ihl, iha⟩ := ih hrs' _ hinv₁ c
        refine ⟨ihh, ihl, ?_⟩
        rw [iha, hacct c]
        by_cases hc : c = rc
        · subst hc
          simp [depSum, succWithdrawSum, hw]
        · have hcr : ¬ rc = c := fun h => hc h.symm
          simp [depSum, succWithdrawSum, hcr]

/-- Writing a client's looked-up account straight back (the no-op arms of
the engine) changes no account, field-wise. -/
theorem acctOf_writeback (e : PaymentEngine) (tr : List (TxId × StoredTransaction))
    (c c' : ClientId) :
    acctOf ⟨mapInsert c (acctOf e c) e.accounts, tr⟩ c' = acctOf e c' := by
  by_cases hc : c' = c
  · subst hc
    rw [acctOf_insert_self]
  · rw [acctOf_insert_ne hc]
    rfl

/-- C5: over a fresh engine, any run made only of deposits and withdrawals
(all amounts present and non-negative) leaves every client with `held = 0`
and `total` equal to the sum of the client's deposits minus the sum of the
client's successful withdrawals. -/
theorem C5_deposits_withdrawals_total (rs : List TransactionRecord)
    (hrs : ∀ r ∈ rs, (r.tx_type = TransactionType.Deposit ∨
        r.tx_type = TransactionType.Withdrawal) ∧
        ∃ q : Rat, r.amount = some q ∧ 0 ≤ q) :
    ∀ c, (acctOf (processAll PaymentEngine.new rs) c).held = 0 ∧
      (acctOf (processAll PaymentEngine.new rs) c).total =
        depSum c rs - succWithdrawSum c 0 rs := by
  have hrs' : ∀ r ∈ rs, (r.tx_type = TransactionType.Deposit ∨
      r.tx_type = TransactionType.Withdrawal) ∧ ∃ q : Rat, r.amount = some q := by
    intro r hr
    obtain ⟨h1, q, hq, _⟩ := hrs r hr
    exact ⟨h1, q, hq⟩
  have hinv : ∀ c', (acctOf PaymentEngine.new c').held = 0 ∧
      (acctOf PaymentEngine.new c').locked = false := fun c' => ⟨rfl, rfl⟩
  intro c
  obtain ⟨h1, _, h3⟩ := depwd_run rs hrs' PaymentEngine.new hinv c
  refine ⟨h1, ?_⟩
  unfold Account.total
  rw [h1, h3]
  show (0 : Rat) + depSum c rs - succWithdrawSum c 0 rs + 0 = _
  ring

/-- C5 at a concrete run: deposit 10, withdraw 4, withdraw 99 (fails). -/
theorem C5_deposits_withdrawals_total_witness :
    (acctOf (processAll PaymentEngine.new
      [⟨TransactionType.Deposit, 1, 1, some 10⟩,
       ⟨TransactionType.Withdrawal, 1, 2, some 4⟩,
       ⟨TransactionType.Withdrawal, 1, 3, some 99⟩]) 1).held = 0 ∧
    (acctOf (processAll PaymentEngine.new
      [⟨TransactionType.Deposit, 1, 1, some 10⟩,
       ⟨TransactionType.Withdrawal, 1, 2, some 4⟩,
       ⟨TransactionType.Withdrawal, 1, 3, some 99⟩]) 1).total =
      depSum 1 [⟨TransactionType.Deposit, 1, 1, some 10⟩,
       ⟨TransactionType.Withdrawal, 1, 2, some 4⟩,
       ⟨TransactionType.Withdrawal, 1, 3, some 99⟩]
      - succWithdrawSum 1 0 [⟨TransactionType.Deposit, 1, 1, some 10⟩,
       ⟨TransactionType.Withdrawal, 1, 2, some 4⟩,
       ⟨TransactionType.Withdrawal, 1, 3, some 99⟩] :=
  C5_deposits_withdrawals_total _ (by
    intro r hr
    simp only [List.mem_cons, List.not_mem_nil, or_false] at hr
    rcases hr with h | h | h <;> subst h <;>
      exact ⟨by simp, _, rfl, by norm_num⟩) 1

theorem mapInsert_acctOf_insert (c : ClientId) (a : Account)
    (acc : List (ClientId × Account)) (tr : List (TxId × StoredTransaction)) :
    mapInsert c (acctOf ⟨mapInsert c a acc, tr⟩ c) (mapInsert c a acc) =
      mapInsert c a acc := by
  rw [acctOf_insert_self]
  exact mapInsert_of_lookup (mapLookup_insert_self c a acc)

/-- C6: a withdrawal of more than `available` returns `false` with no
mutation; a Withdrawal record whose `withdraw` returned `false` stores no
history entry under its (fresh) transaction id, so a later Dispute naming
that id is a no-op: it leaves every account's fields and the whole
transaction history unchanged. -/
theorem C6_failed_withdrawal (e : PaymentEngine) (c : ClientId) (t : TxId) (q : Rat)
    (hfail : ((acctOf e c).withdraw q).1 = false)
    (hfresh : mapLookup t e.transactions = none) :
    (∀ (a : Account) (p : Rat), a.available < p → a.withdraw p = (false, a)) ∧
    ∃ e₁ e₂,
      e.process_transaction ⟨TransactionType.Withdrawal, c, t, some q⟩ = Except.ok e₁ ∧
      e₁.transactions = e.transactions ∧
      (∀ c', acctOf e₁ c' = acctOf e c') ∧
      e₁.process_transaction ⟨TransactionType.Dispute, c, t, none⟩ = Except.ok e₂ ∧
      e₂.transactions = e₁.transactions ∧
      (∀ c', acctOf e₂ c' = acctOf e₁ c') := by
  have hpart1 : ∀ (a : Account) (p : Rat), a.available < p → a.withdraw p = (false, a) := by
    intro a p hp
    unfold Account.withdraw
    rw [if_neg (fun h => absurd h.2 (not_le.mpr hp))]
  have hwd : (acctOf e c).withdraw q = (false, acctOf e c) := by
    unfold Account.withdraw at hfail ⊢
    by_cases h : (acctOf e c).locked = false ∧ q ≤ (acctOf e c).available
    · rw [if_pos h] at hfail
      simp at hfail
    · rw [if_neg h]
  have heq1 : e.process_transaction ⟨TransactionType.Withdrawal, c, t, some q⟩ =
      Except.ok ⟨mapInsert c (acctOf e c) e.accounts, e.transactions⟩ := by
    rw [process_withdrawal_eq, hwd]
    simp
  have heq2 : (⟨mapInsert c (acctOf e c) e.accounts, e.transactions⟩ :
        PaymentEngine).process_transaction ⟨TransactionType.Dispute, c, t, none⟩ =
      Except.ok ⟨mapInsert c (acctOf ⟨mapInsert c (acctOf e c) e.accounts,
          e.transactions⟩ c) (mapInsert c (acctOf e c) e.accounts), e.transactions⟩ := by
    rw [process_dispute_eq]
    dsimp only
    rw [hfresh]
  exact ⟨hpart1, _, _, heq1, rfl, fun c' => acctOf_writeback e _ c c', heq2, rfl,
    fun c' => acctOf_writeback ⟨mapInsert c (acctOf e c) e.accounts, e.transactions⟩
      _ c c'⟩

/-- C6 at a concrete engine: the fresh engine, withdrawal of 5 from the
empty account of client 1 under transaction id 3, then a dispute of id 3. -/
theorem C6_failed_withdrawal_witness :
    (∀ (a : Account) (p : Rat), a.available < p → a.withdraw p = (false, a)) ∧
    ∃ e₁ e₂,
      PaymentEngine.new.process_transaction
        ⟨TransactionType.Withdrawal, 1, 3, some 5⟩ = Except.ok e₁ ∧
      e₁.transactions = PaymentEngine.new.transactions ∧
      (∀ c', acctOf e₁ c' = acctOf PaymentEngine.new c') ∧
      e₁.process_transaction ⟨TransactionType.Dispute, 1, 3, none⟩ = Except.ok e₂ ∧
      e₂.transactions = e₁.transactions ∧
      (∀ c', acctOf e₂ c' = acctOf e₁ c') :=
  C6_failed_withdrawal PaymentEngine.new 1 3 5
    (by norm_num [acctOf, mapLookup, PaymentEngine.new, Account.new, Account.withdraw])
    rfl

/-- C7: applying the same Dispute record twice holds the amount at most
once — the second application maps the engine state produced by the first
to exactly itself (accounts and transaction history unchanged). -/
theorem C7_dispute_idempotent (e e₁ : PaymentEngine) (r : TransactionRecord)
    (hty : r.tx_type = TransactionType.Dispute)
    (h1 : e.process_transaction r = Except.ok e₁) :
    e₁.process_transaction r = Except.ok e₁ := by
  obtain ⟨ty, c, t, am⟩ := r
  dsimp only at hty
  subst hty
  rw [process_dispute_eq] at h1 ⊢
  rcases hlook : mapLookup t e.transactions with _ | st
  · simp only [hlook, Except.ok.injEq] at h1
    subst h1
    simp [hlook, mapInsert_acctOf_insert]
  · by_cases hg : st.client = c ∧ st.disputed = false
    · simp only [hlook, hg.1, hg.2, and_self, if_true, Except.ok.injEq] at h1
      subst h1
      simp [mapLookup_insert_self, mapInsert_acctOf_insert]
    · simp only [hlook, if_neg hg, Except.ok.injEq] at h1
      subst h1
      simp [hlook, if_neg hg, mapInsert_acctOf_insert]

/-- C7 at a concrete input: disputing an unknown transaction id twice on
the fresh engine. -/
theorem C7_dispute_idempotent_witness :
    (⟨[(1, Account.new)], []⟩ : PaymentEngine).process_transaction
      ⟨TransactionType.Dispute, 1, 1, none⟩ =
      Except.ok ⟨[(1, Account.new)], []⟩ :=
  C7_dispute_idempotent PaymentEngine.new ⟨[(1, Account.new)], []⟩
    ⟨TransactionType.Dispute, 1, 1, none⟩ rfl rfl

/-- C8: `process_transaction` returns an error exactly when the record is a
Deposit or Withdrawal with no amount; the error path leaves the engine
unchanged in the record loop, and every other record returns success. -/
theorem C8_error_iff_missing_amount (e : PaymentEngine) (r : TransactionRecord) :
    ((∃ msg, e.process_transaction r = Except.error msg) ↔
      ((r.tx_type = TransactionType.Deposit ∨ r.tx_type = TransactionType.Withdrawal) ∧
        r.amount = none)) ∧
    (∀ msg, e.process_transaction r = Except.error msg → processAll e [r] = e) := by
  constructor
  · obtain ⟨ty, c, t, am⟩ := r
    cases ty <;> rcases am with _ | q
    · exact ⟨fun _ => ⟨Or.inl rfl, rfl⟩, fun _ => ⟨_, rfl⟩⟩
    · constructor
      · rintro ⟨msg, hmsg⟩
        rw [process_deposit_eq] at hmsg
        exact absurd hmsg (by simp)
      · rintro ⟨_, hnone⟩
        exact absurd hnone (by simp)
    · exact ⟨fun _ => ⟨Or.inr rfl, rfl⟩, fun _ => ⟨_, rfl⟩⟩
    · constructor
      · rintro ⟨msg, hmsg⟩
        rw [process_withdrawal_eq] at hmsg
        exact absurd hmsg (by simp)
      · rintro ⟨_, hnone⟩
        exact absurd hnone (by simp)
    all_goals constructor
    all_goals try
      rintro ⟨hor, _⟩
      rcases hor with h | h <;> exact absurd h (by simp)
    all_goals rintro ⟨msg, hmsg⟩
    · rw [process_dispute_eq] at hmsg
      rcases hlook : mapLookup t e.transactions with _ | st <;>
          simp only [hlook] at hmsg
      · exact absurd hmsg (by simp)
      · split_ifs at hmsg
    · rw [process_dispute_eq] at hmsg
      rcases hlook : mapLookup t e.transactions with _ | st <;>
          simp only [hlook] at hmsg
      · exact absurd hmsg (by simp)
      · split_ifs at hmsg
    · rw [process_resolve_eq] at hmsg
      rcases hlook : mapLookup t e.transactions with _ | st <;>
          simp only [hlook] at hmsg
      · exact absurd hmsg (by simp)
      · split_ifs at hmsg
    · rw [process_resolve_eq] at hmsg
      rcases hlook : mapLookup t e.transactions with _ | st <;>
          simp only [hlook] at hmsg
      · exact absurd hmsg (by simp)
      · split_ifs at hmsg
    · rw [process_chargeback_eq] at hmsg
      rcases hlook : mapLookup t e.transactions with _ | st <;>
          simp only [hlook] at hmsg
      · exact absurd hmsg (by simp)
      · split_ifs at hmsg
    · rw [process_chargeback_eq] at hmsg
      rcases hlook : mapLookup t e.transactions with _ | st <;>
          simp only [hlook] at hmsg
      · exact absurd hmsg (by simp)
      · split_ifs at hmsg
  · intro msg h
    simp [processAll, h]

/-- C8 at a concrete input: an amount-less Deposit on the fresh engine. -/
theorem C8_error_iff_missing_amount_witness :
    ((∃ msg, PaymentEngine.new.process_transaction
        ⟨TransactionType.Deposit, 1, 1, none⟩ = Except.error msg) ↔
      ((TransactionType.Deposit = TransactionType.Deposit ∨
        TransactionType.Deposit = TransactionType.Withdrawal) ∧
        (none : Option Rat) = none)) ∧
    (∀ msg, PaymentEngine.new.process_transaction
        ⟨TransactionType.Deposit, 1, 1, none⟩ = Except.error msg →
      processAll PaymentEngine.new [⟨TransactionType.Deposit, 1, 1, none⟩] =
        PaymentEngine.new) :=
  C8_error_iff_missing_amount PaymentEngine.new ⟨TransactionType.Deposit, 1, 1, none⟩

/-- The disputed state a Dispute / Resolve / Chargeback record expects the
referenced transaction to be in (from the guards in the engine's arms). -/
def expectedDisputed : TransactionType → Bool
  | TransactionType.Dispute => false
  | _ => true

/-- C9: a Dispute, Resolve or Chargeback whose reference does not resolve —
unknown transaction id, client mismatch, or the transaction not in the
expected disputed state — succeeds and changes no account fields and no
stored transaction. -/
theorem C9_bad_reference_noop (e : PaymentEngine) (c : ClientId) (t : TxId)
    (am : Option Rat) (ty : TransactionType)
    (hty : ty = TransactionType.Dispute ∨ ty = TransactionType.Resolve ∨
      ty = TransactionType.Chargeback)
    (hbad : ∀ st, mapLookup t e.transactions = some st →
      st.client ≠ c ∨ st.disputed ≠ expectedDisputed ty) :
    ∃ e', e.process_transaction ⟨ty, c, t, am⟩ = Except.ok e' ∧
      (∀ c', acctOf e' c' = acctOf e c') ∧
      e'.transactions = e.transactions := by
  rcases hty with h | h | h <;> subst h
  · rcases hlook : mapLookup t e.transactions with _ | st
    · refine ⟨⟨mapInsert c (acctOf e c) e.accounts, e.transactions⟩, ?_,
        fun c' => acctOf_writeback e _ c c', rfl⟩
      rw [process_dispute_eq]
      simp only [hlook]
    · have hg : ¬(st.client = c ∧ st.disputed = false) := by
        rcases hbad st hlook with hb | hb
        · exact fun hcontra => hb hcontra.1
        · exact fun hcontra => hb hcontra.2
      refine ⟨⟨mapInsert c (acctOf e c) e.accounts, e.transactions⟩, ?_,
        fun c' => acctOf_writeback e _ c c', rfl⟩
      rw [process_dispute_eq]
      simp only [hlook, if_neg hg]
  · rcases hlook : mapLookup t e.transactions with _ | st
    · refine ⟨⟨mapInsert c (acctOf e c) e.accounts, e.transactions⟩, ?_,
        fun c' => acctOf_writeback e _ c c', rfl⟩
      rw [process_resolve_eq]
      simp only [hlook]
    · have hg : ¬(st.client = c ∧ st.disputed = true) := by
        rcases hbad st hlook with hb | hb
        · exact fun hcontra => hb hcontra.1
        · exact fun hcontra => hb hcontra.2
      refine ⟨⟨mapInsert c (acctOf e c) e.accounts, e.transactions⟩, ?_,
        fun c' => acctOf_writeback e _ c c', rfl⟩
      rw [process_resolve_eq]
      simp only [hlook, if_neg hg]
  · rcases hlook : mapLookup t e.transactions with _ | st
    · refine ⟨⟨mapInsert c (acctOf e c) e.accounts, e.transactions⟩, ?_,
        fun c' => acctOf_writeback e _ c c', rfl⟩
      rw [process_chargeback_eq]
      simp only [hlook]
    · have hg : ¬(st.client = c ∧ st.disputed = true) := by
        rcases hbad st hlook with hb | hb
        · exact fun hcontra => hb hcontra.1
        · exact fun hcontra => hb hcontra.2
      refine ⟨⟨mapInsert c (acctOf e c) e.accounts, e.transactions⟩, ?_,
        fun c' => acctOf_writeback e _ c c', rfl⟩
      rw [process_chargeback_eq]
      simp only [hlook, if_neg hg]

/-- C9 at a concrete input: a Dispute naming an unknown transaction id on
the fresh engine. -/
theorem C9_bad_reference_noop_witness :
    ∃ e', PaymentEngine.new.process_transaction
        ⟨TransactionType.Dispute, 1, 1, none⟩ = Except.ok e' ∧
      (∀ c', acctOf e' c' = acctOf PaymentEngine.new c') ∧
      e'.transactions = PaymentEngine.new.transactions :=
  C9_bad_reference_noop PaymentEngine.new 1 1 none TransactionType.Dispute
    (Or.inl rfl) (fun st hst => by simp [PaymentEngine.new, mapLookup] at hst)

/-- C10 counterexample: deposit 10 (tx 1), deposit 8 (tx 2), dispute tx 1,
withdraw 6 leaves `available = 2, held = 10`.  Disputing tx 2 (amount 8 >
available 2) marks it disputed while holding nothing — but the claim's "a
following Resolve releases nothing" is false: the Resolve of tx 2 finds
`held = 10 >= 8` and releases 8 (of the funds held for tx 1), changing the
account from `{2, 10}` to `{10, 2}`. -/
theorem C10_cex_resolve_releases :
    mapLookup 2 (processAll PaymentEngine.new
        [⟨TransactionType.Deposit, 1, 1, some 10⟩,
         ⟨TransactionType.Deposit, 1, 2, some 8⟩,
         ⟨TransactionType.Dispute, 1, 1, none⟩,
         ⟨TransactionType.Withdrawal, 1, 3, some 6⟩]).transactions
      = some ⟨1, 8, TransactionType.Deposit, false⟩ ∧
    acctOf (processAll PaymentEngine.new
        [⟨TransactionType.Deposit, 1, 1, some 10⟩,
         ⟨TransactionType.Deposit, 1, 2, some 8⟩,
         ⟨TransactionType.Dispute, 1, 1, none⟩,
         ⟨TransactionType.Withdrawal, 1, 3, some 6⟩]) 1 = ⟨2, 10, false⟩ ∧
    acctOf (processAll PaymentEngine.new
        [⟨TransactionType.Deposit, 1, 1, some 10⟩,
         ⟨TransactionType.Deposit, 1, 2, some 8⟩,
         ⟨TransactionType.Dispute, 1, 1, none⟩,
         ⟨TransactionType.Withdrawal, 1, 3, some 6⟩,
         ⟨TransactionType.Dispute, 1, 2, none⟩]) 1 = ⟨2, 10, false⟩ ∧
    mapLookup 2 (processAll PaymentEngine.new
        [⟨TransactionType.Deposit, 1, 1, some 10⟩,
         ⟨TransactionType.Deposit, 1, 2, some 8⟩,
         ⟨TransactionType.Dispute, 1, 1, none⟩,
         ⟨TransactionType.Withdrawal, 1, 3, some 6⟩,
         ⟨TransactionType.Dispute, 1, 2, none⟩]).transactions
      = some ⟨1, 8, TransactionType.Deposit, true⟩ ∧
    acctOf (processAll PaymentEngine.new
        [⟨TransactionType.Deposit, 1, 1, some 10⟩,
         ⟨TransactionType.Deposit, 1, 2, some 8⟩,
         ⟨TransactionType.Dispute, 1, 1, none⟩,
         ⟨TransactionType.Withdrawal, 1, 3, some 6⟩,
         ⟨TransactionType.Dispute, 1, 2, none⟩,
         ⟨TransactionType.Resolve, 1, 2, none⟩]) 1 = ⟨10, 2, false⟩ := by
  refine ⟨?_, ?_, ?_, ?_, ?_⟩ <;>
    norm_num [processAll, PaymentEngine.process_transaction, TransactionRecord.validate,
      acctOf, mapLookup, mapInsert, PaymentEngine.new, Account.new, Account.deposit,
      Account.withdraw, Account.hold_funds, Account.release_funds]

/-- C10 amended: when the referenced transaction exists with matching
client and `disputed == false` but the account is locked or has
`available < amount`, the Dispute marks the transaction disputed while
changing no account field; a following Resolve changes no account field
(and resets `disputed`) provided the account is locked or `held < amount`;
and a following Chargeback, when `held < amount`, resets `disputed`
without removing funds or changing the lock flag. -/
theorem C10_dispute_without_hold_amended (e : PaymentEngine) (c : ClientId) (t : TxId)
    (st : StoredTransaction) (hst : mapLookup t e.transactions = some st)
    (hc : st.client = c) (hd : st.disputed = false)
    (hno : (acctOf e c).locked = true ∨ (acctOf e c).available < st.amount) :
    ∃ e₁, e.process_transaction ⟨TransactionType.Dispute, c, t, none⟩ = Except.ok e₁ ∧
      mapLookup t e₁.transactions = some { st with disputed := true } ∧
      acctOf e₁ c = acctOf e c ∧
      ((acctOf e c).locked = true ∨ (acctOf e c).held < st.amount →
        ∃ e₂, e₁.process_transaction ⟨TransactionType.Resolve, c, t, none⟩ = Except.ok e₂ ∧
          acctOf e₂ c = acctOf e c ∧ mapLookup t e₂.transactions = some st) ∧
      ((acctOf e c).held < st.amount →
        ∃ e₃, e₁.process_transaction ⟨TransactionType.Chargeback, c, t, none⟩
            = Except.ok e₃ ∧
          acctOf e₃ c = acctOf e c ∧ mapLookup t e₃.transactions = some st) := by
  obtain ⟨sc, sa, sty, sd⟩ := st
  dsimp only at hc hd hno ⊢
  subst hc
  subst hd
  have hhold : (acctOf e sc).hold_funds sa = acctOf e sc := by
    unfold Account.hold_funds
    rw [if_neg]
    rintro ⟨h1, h2⟩
    rcases hno with hn | hn
    · rw [hn] at h1
      exact absurd h1 (by simp)
    · exact absurd h2 (not_le.mpr hn)
  have heq1 : e.process_transaction ⟨TransactionType.Dispute, sc, t, none⟩ =
      Except.ok ⟨mapInsert sc (acctOf e sc) e.accounts,
                 mapInsert t ⟨sc, sa, sty, true⟩ e.transactions⟩ := by
    rw [process_dispute_eq]
    simp only [hst, and_self, if_true, hhold]
  refine ⟨⟨mapInsert sc (acctOf e sc) e.accounts,
      mapInsert t ⟨sc, sa, sty, true⟩ e.transactions⟩, heq1,
      mapLookup_insert_self _ _ _, acctOf_insert_self _ _ _ _, ?_, ?_⟩
  · intro hr
    have hrel : (acctOf ⟨mapInsert sc (acctOf e sc) e.accounts,
        mapInsert t ⟨sc, sa, sty, true⟩ e.transactions⟩ sc).release_funds sa
          = acctOf e sc := by
      rw [acctOf_insert_self]
      unfold Account.release_funds
      rw [if_neg]
      rintro ⟨h1, h2⟩
      rcases hr with hn | hn
      · rw [hn] at h1
        exact absurd h1 (by simp)
      · exact absurd h2 (not_le.mpr hn)
    have heq2 : (⟨mapInsert sc (acctOf e sc) e.accounts,
        mapInsert t ⟨sc, sa, sty, true⟩ e.transactions⟩ :
          PaymentEngine).process_transaction ⟨TransactionType.Resolve, sc, t, none⟩ =
        Except.ok ⟨mapInsert sc (acctOf e sc) (mapInsert sc (acctOf e sc) e.accounts),
          mapInsert t ⟨sc, sa, sty, false⟩ (mapInsert t ⟨sc, sa, sty, true⟩
            e.transactions)⟩ := by
      rw [process_resolve_eq]
      dsimp only
      rw [mapLookup_insert_self]
      simp only [and_self, if_true, hrel]
    exact ⟨_, heq2, by
      rw [acctOf_insert_self], mapLookup_insert_self _ _ _⟩
  · intro hr
    have hcb : (acctOf ⟨mapInsert sc (acctOf e sc) e.accounts,
        mapInsert t ⟨sc, sa, sty, true⟩ e.transactions⟩ sc).chargeback sa
          = acctOf e sc := by
      rw [acctOf_insert_self]
      unfold Account.chargeback
      rw [if_neg (not_le.mpr hr)]
    have heq3 : (⟨mapInsert sc (acctOf e sc) e.accounts,
        mapInsert t ⟨sc, sa, sty, true⟩ e.transactions⟩ :
          PaymentEngine).process_transaction ⟨TransactionType.Chargeback, sc, t, none⟩ =
        Except.ok ⟨mapInsert sc (acctOf e sc) (mapInsert sc (acctOf e sc) e.accounts),
          mapInsert t ⟨sc, sa, sty, false⟩ (mapInsert t ⟨sc, sa, sty, true⟩
            e.transactions)⟩ := by
      rw [process_chargeback_eq]
      dsimp only
      rw [mapLookup_insert_self]
      simp only [and_self, if_true, hcb]
    exact ⟨_, heq3, by
      rw [acctOf_insert_self], mapLookup_insert_self _ _ _⟩

/-- C10 amended, at a concrete engine: client 1 has `available = 1, held = 0`
and transaction 4 is an undisputed deposit of 5 (so the hold, a resolve's
release and a chargeback's removal are all silently skipped). -/
theorem C10_dispute_without_hold_amended_witness :
    ∃ e₁, (PaymentEngine.mk [(1, ⟨1, 0, false⟩)]
        [(4, ⟨1, 5, TransactionType.Deposit, false⟩)]).process_transaction
        ⟨TransactionType.Dispute, 1, 4, none⟩ = Except.ok e₁ ∧
      mapLookup 4 e₁.transactions = some ⟨1, 5, TransactionType.Deposit, true⟩ ∧
      acctOf e₁ 1 = acctOf (PaymentEngine.mk [(1, ⟨1, 0, false⟩)]
        [(4, ⟨1, 5, TransactionType.Deposit, false⟩)]) 1 ∧
      ((acctOf (PaymentEngine.mk [(1, ⟨1, 0, false⟩)]
          [(4, ⟨1, 5, TransactionType.Deposit, false⟩)]) 1).locked = true ∨
        (acctOf (PaymentEngine.mk [(1, ⟨1, 0, false⟩)]
          [(4, ⟨1, 5, TransactionType.Deposit, false⟩)]) 1).held < (5 : Rat) →
        ∃ e₂, e₁.process_transaction ⟨TransactionType.Resolve, 1, 4, none⟩
            = Except.ok e₂ ∧
          acctOf e₂ 1 = acctOf (PaymentEngine.mk [(1, ⟨1, 0, false⟩)]
            [(4, ⟨1, 5, TransactionType.Deposit, false⟩)]) 1 ∧
          mapLookup 4 e₂.transactions = some ⟨1, 5, TransactionType.Deposit, false⟩) ∧
      ((acctOf (PaymentEngine.mk [(1, ⟨1, 0, false⟩)]
          [(4, ⟨1, 5, TransactionType.Deposit, false⟩)]) 1).held < (5 : Rat) →
        ∃ e₃, e₁.process_transaction ⟨TransactionType.Chargeback, 1, 4, none⟩
            = Except.ok e₃ ∧
          acctOf e₃ 1 = acctOf (PaymentEngine.mk [(1, ⟨1, 0, false⟩)]
            [(4, ⟨1, 5, TransactionType.Deposit, false⟩)]) 1 ∧
          mapLookup 4 e₃.transactions = some ⟨1, 5, TransactionType.Deposit, false⟩) :=
  C10_dispute_without_hold_amended
    (PaymentEngine.mk [(1, ⟨1, 0, false⟩)] [(4, ⟨1, 5, TransactionType.Deposit, false⟩)])
    1 4 ⟨1, 5, TransactionType.Deposit, false⟩ rfl rfl rfl
    (Or.inr (by norm_num [acctOf, mapLookup]))
